import Mathlib

/-!
Verification of the `tree` command from `windows-iot-cmds-extra`
(`tree/main.cpp`), a Windows tree-rendering utility.

The embedding below translates the source functions into Lean:

* `HasSubFolder`      — `HasSubFolder` (main.cpp:51-81)
* `getDirectoryStructure` / `drawTreeFolders` / `drawTreeFiles`
                      — `GetDirectoryStructure` (main.cpp:235-310) and
                        `DrawTree` (main.cpp:102-219)
* `parseLoop`         — the argument-parsing loop of `wmain` (main.cpp:332-369)

The Win32 filesystem is modelled by the inductive `FSNode`: a directory
carries a `readable` flag (whether `FindFirstFile` on `path\*.*` succeeds)
and its children in native enumeration order, each child being a name, a
`dwFileAttributes` word, and the child's own node.  `FindFirstFile`
enumeration is modelled by `enumerate`, which prepends the `.` and `..`
pseudo-entries (both carrying `FILE_ATTRIBUTE_DIRECTORY = 0x10`) exactly as
the Win32 API reports them.  Per the design notes of the specification the
wildcard patterns `*.` and `*.*` are both treated as matching every entry
of the directory (exact short-name pattern semantics are declared
implementation-defined there).
-/

namespace TreeCmd

/-- Contents of a `wchar_t` buffer, one `Char` per wide character. -/
abbrev WStr := List Char

/-- The NUL wide character, read when a C index reaches the terminator. -/
def wNul : Char := Char.ofNat 0

/-- Test of the `FILE_ATTRIBUTE_DIRECTORY` bit (0x10) in `dwFileAttributes`,
as in `FindFileData.dwFileAttributes & FILE_ATTRIBUTE_DIRECTORY`. -/
def isDirAttr (a : Nat) : Bool := a &&& 16 != 0

/-- The two process-wide flags `bShowFiles` and `bUseAscii` (main.cpp:24,27). -/
structure RenderConfig where
  bShowFiles : Bool
  bUseAscii : Bool
deriving DecidableEq, Repr

/-- A filesystem node: either a plain file, or a directory with a
readability flag (whether `FindFirstFile` on it succeeds) and its children
in native enumeration order.  Each child is `(name, dwFileAttributes, node)`. -/
inductive FSNode : Type where
  | file : FSNode
  | dir (readable : Bool) (children : List (WStr × Nat × FSNode)) : FSNode

/-- One `WIN32_FIND_DATA` record as consumed by this program: the
`cFileName` field and the `dwFileAttributes` word. -/
structure FindData where
  cFileName : WStr
  dwFileAttributes : Nat
deriving DecidableEq, Repr

/-- The find data reported for one child entry. -/
def childData (c : WStr × Nat × FSNode) : FindData := ⟨c.1, c.2.1⟩

/-- `FindFirstFile`/`FindNextFile` enumeration of `path\*.*` (and, per the
specification's implementation-defined-pattern note, also of `path\*.`):
`none` when the handle is `INVALID_HANDLE_VALUE` (a file path or an
unreadable directory), otherwise the `.` and `..` pseudo-entries followed by
every child in native order. -/
def enumerate : FSNode → Option (List FindData)
  | .file => none
  | .dir false _ => none
  | .dir true cs => some (⟨['.'], 16⟩ :: ⟨['.', '.'], 16⟩ :: cs.map childData)

/-- Name comparison against the `.` and `..` pseudo-entries
(main.cpp:68-69 and main.cpp:262-263). -/
def isPseudo (n : WStr) : Bool := n == ['.'] || n == ['.', '.']

/-- The do-while scan of `HasSubFolder` (main.cpp:64-77): walk the find
results; a directory named `.` or `..` is skipped via `continue`; any other
entry with the directory attribute stops the loop with `ret = TRUE`. -/
def hasSubScan : List FindData → Bool
  | [] => false
  | d :: rest =>
    if isDirAttr d.dwFileAttributes then
      if isPseudo d.cFileName then hasSubScan rest else true
    else hasSubScan rest

/-- `HasSubFolder` (main.cpp:51-81).  The source never tests
`hFind == INVALID_HANDLE_VALUE`: when `FindFirstFile` fails, the body of the
do-while still runs once on the never-written stack variable
`FindFileData` (modelled by the extra argument `stale`), after which
`FindNextFile` on the invalid handle fails and the loop ends.  When the
handle is valid, the do-while examines exactly the enumerated records. -/
def HasSubFolder (node : FSNode) (stale : FindData) : Bool :=
  match enumerate node with
  | some l => hasSubScan l
  | none => hasSubScan [stale]

/-- An all-zero find-data record, used where the probe's result cannot
depend on the uninitialized buffer (the path was just opened successfully). -/
def zeroFind : FindData := ⟨[], 0⟩

/-- The continuation glyph appended per scanned column (main.cpp:131-139):
`│` (U+2502), or `|` when `bUseAscii`. -/
def vertChar (ascii : Bool) : Char := if ascii then '|' else '│'

/-- The column test of main.cpp:128-129:
`prevLine[j] == L'├' || prevLine[j] == L'│' ||
 (BYTE)prevLine[j] == L'+' || (BYTE)prevLine[j] == L'|'`.
The `(BYTE)` casts compare only the low byte of the wide character:
`'+'` is code 43 and `'|'` is code 124. -/
def contCond (c : Char) : Bool :=
  c == '├' || c == '│' || c.toNat % 256 == 43 || c.toNat % 256 == 124

/-- The indentation scan of main.cpp:122-145: for each of the `width - 1`
columns, emit the continuation glyph when `contCond` holds of the previous
line's character at that column, else a blank.  Reading `prevLine[j]` past
the string contents yields the NUL terminator. -/
def indentText (ascii : Bool) (width : Nat) (prevLine : WStr) : WStr :=
  (List.range (width - 1)).map fun j =>
    if contCond (prevLine.getD j wNul) then vertChar ascii else ' '

/-- The connector written by main.cpp:147-200 in front of the entry name:
outer split on `szArr - 1 != i` (not-last first), then on `drawfolder`,
then — for files — on `bHasSubFolder`. -/
def segment (cfg : RenderConfig) (hasSub : Bool) (isLast : Bool)
    (drawfolder : Bool) (name : WStr) : WStr :=
  if !isLast then
    if drawfolder then
      (if cfg.bUseAscii then ['+', '-', '-', '-']
       else ['├', '─', '─', '─']) ++ name
    else
      if hasSub then
        (if cfg.bUseAscii then ['|', ' ', ' ', ' ']
         else ['│', ' ', ' ', ' ']) ++ name
      else [' ', ' ', ' ', ' ', ' '] ++ name
  else
    if drawfolder then
      (if cfg.bUseAscii then ['\\', '-', '-', '-']
       else ['└', '─', '─', '─']) ++ name
    else
      if hasSub then
        (if cfg.bUseAscii then ['|', ' ', ' ', ' ']
         else ['│', ' ', ' ', ' ']) ++ name
      else [' ', ' ', ' ', ' ', ' '] ++ name

/-- `DrawTree` with `drawfolder = FALSE` (the file pass): one printed line
per array entry, no recursion (main.cpp:205 guards the recursive call with
`drawfolder`).  Only `cFileName` of each record is read, so the entries are
just the names. -/
def drawTreeFiles (cfg : RenderConfig) (hasSub : Bool) (width : Nat)
    (prevLine : WStr) : List WStr → List WStr
  | [] => []
  | [n] => [indentText cfg.bUseAscii width prevLine ++ segment cfg hasSub true false n]
  | n :: n2 :: rest =>
    (indentText cfg.bUseAscii width prevLine ++ segment cfg hasSub false false n) ::
      drawTreeFiles cfg hasSub width prevLine (n2 :: rest)

/-- The `arrFile` collection of main.cpp:275-284: entries of the enumeration
without the directory attribute, in order.  The `.`/`..` pseudo-entries
carry the directory attribute, so collecting from the children alone is
exact. -/
def fileNames (cs : List (WStr × Nat × FSNode)) : List WStr :=
  (cs.filter fun c => !isDirAttr c.2.1).map (·.1)

/-- The `arrFolder` membership test of main.cpp:260-264: directory
attribute set and name neither `.` nor `..`. -/
def isRealFolder (c : WStr × Nat × FSNode) : Bool :=
  isDirAttr c.2.1 && !isPseudo c.1

/-- The `arrFolder` collection of main.cpp:258-274, keeping each entry's
subtree for the recursive walk (the source re-opens the child by name; names
returned by one `FindFirstFile` pass are unique, so this is the same child). -/
def folderEntries (cs : List (WStr × Nat × FSNode)) : List (WStr × Nat × FSNode) :=
  cs.filter isRealFolder

/-- The spacer spoofing of main.cpp:292-301: when at least one file was
collected, append one record whose `cFileName` is the single blank `" "`. -/
def withSpacer (l : List WStr) : List WStr :=
  if l.isEmpty then l else l ++ [[' ']]

mutual

/-- `GetDirectoryStructure` (main.cpp:235-310) as the list of lines it
prints: return nothing when the path cannot be opened (main.cpp:255-256);
otherwise partition the enumeration into files and folders, and run the
file pass (with the spacer, under `bShowFiles`) followed by the folder
pass.  Both `DrawTree` calls receive `bHasSubFolder = HasSubFolder(strPath)`
(main.cpp:109); the path was just opened, so the probe cannot reach its
stale-data branch and `zeroFind` stands for the irrelevant buffer. -/
def getDirectoryStructure (cfg : RenderConfig) (node : FSNode) (width : Nat)
    (prevLine : WStr) : List WStr :=
  match node with
  | .file => []
  | .dir false _ => []
  | .dir true cs =>
    (if cfg.bShowFiles then
      drawTreeFiles cfg (HasSubFolder (.dir true cs) zeroFind) width prevLine
        (withSpacer (fileNames cs))
     else []) ++
    drawTreeFolders cfg (HasSubFolder (.dir true cs) zeroFind) width prevLine
      (folderEntries cs)
termination_by sizeOf node
decreasing_by
  have h : sizeOf (List.filter isRealFolder cs) ≤ sizeOf cs := by
    induction cs with
    | nil => simp [List.filter]
    | cons a l ih =>
      rw [List.filter_cons]
      split <;> simp only [List.cons.sizeOf_spec] <;> omega
  simp only [folderEntries, FSNode.dir.sizeOf_spec]
  omega

/-- `DrawTree` with `drawfolder = TRUE` (main.cpp:102-219): for each entry,
print the indentation columns plus the folder connector (last entry when
`szArr - 1 == i`), then recurse into the child with `width + 4` and the
just-printed line as the new previous line (main.cpp:213). -/
def drawTreeFolders (cfg : RenderConfig) (hasSub : Bool) (width : Nat)
    (prevLine : WStr) (arr : List (WStr × Nat × FSNode)) : List WStr :=
  match arr with
  | [] => []
  | [(n, _, t)] =>
    (indentText cfg.bUseAscii width prevLine ++ segment cfg hasSub true true n) ::
      getDirectoryStructure cfg t (width + 4)
        (indentText cfg.bUseAscii width prevLine ++ segment cfg hasSub true true n)
  | (n, _, t) :: c2 :: rest =>
    ((indentText cfg.bUseAscii width prevLine ++ segment cfg hasSub false true n) ::
      getDirectoryStructure cfg t (width + 4)
        (indentText cfg.bUseAscii width prevLine ++ segment cfg hasSub false true n)) ++
      drawTreeFolders cfg hasSub width prevLine (c2 :: rest)
termination_by sizeOf arr

end

/-! ### Command-line parsing (`wmain`, main.cpp:332-369) -/

/-- `towlower` as applied to the wide characters this program compares
against (the ASCII range; the source's locale-dependent behavior outside it
is not exercised by `'?'`, `'f'`, `'a'`). -/
def towlower (c : Char) : Char :=
  if 'A' ≤ c ∧ c ≤ 'Z' then Char.ofNat (c.toNat + 32) else c

/-- How the argument loop of `wmain` ends: `help` after `PrintUsage` and
`return 0` (main.cpp:338-341), `tooMany arg` after the
`Too many parameters` message and `return 0` (main.cpp:362-367), or `run`
into the banner and traversal with the accumulated flags and optional path. -/
inductive ParseOutcome : Type where
  | help : ParseOutcome
  | tooMany (arg : WStr) : ParseOutcome
  | run (cfg : RenderConfig) (path : Option WStr) : ParseOutcome
deriving DecidableEq, Repr

/-- The mutable state of the argument loop: the three globals
`bShowFiles`, `bUseAscii`, `bSetPath` plus `specifiedPath`. -/
structure ParseState where
  bShowFiles : Bool
  bUseAscii : Bool
  bSetPath : Bool
  specifiedPath : Option WStr
deriving DecidableEq, Repr

/-- All three flags start `FALSE` and no path is stored. -/
def initState : ParseState := ⟨false, false, false, none⟩

/-- The `for (i = 1; i < argc; ++i)` loop of main.cpp:332-369.  Reading
`argv[i][0]` or `argv[i][1]` past the argument's characters yields the NUL
terminator.  An option character other than `?`/`f`/`a` falls into the
switch's `default: break` (main.cpp:349-350) and is silently skipped.  A
second positional argument ends the program via the `Too many parameters`
branch.  (`_wfullpath` normalization of the stored path is outside the
model; the argument is stored as given.) -/
def parseLoop : List WStr → ParseState → ParseOutcome
  | [], st => .run ⟨st.bShowFiles, st.bUseAscii⟩ st.specifiedPath
  | a :: rest, st =>
    if a.getD 0 wNul = '-' ∨ a.getD 0 wNul = '/' then
      if towlower (a.getD 1 wNul) = '?' then .help
      else if towlower (a.getD 1 wNul) = 'f' then
        parseLoop rest ⟨true, st.bUseAscii, st.bSetPath, st.specifiedPath⟩
      else if towlower (a.getD 1 wNul) = 'a' then
        parseLoop rest ⟨st.bShowFiles, true, st.bSetPath, st.specifiedPath⟩
      else parseLoop rest st
    else
      if st.bSetPath = false then
        parseLoop rest ⟨st.bShowFiles, st.bUseAscii, true, some a⟩
      else .tooMany a

/-- Whether the outcome reaches the banner and the
`GetDirectoryStructure` walk (only falling through the loop does). -/
def performsTraversal : ParseOutcome → Bool
  | .run _ _ => true
  | _ => false

/-- The process exit status attached to each outcome: every `return` in
`wmain` returns 0 (main.cpp:341, 366, 389, 411). -/
def outcomeExit : ParseOutcome → Int
  | _ => 0

/-- The text written to the error stream by the `tooMany` branch
(main.cpp:364), naming the offending argument. -/
def errText (a : WStr) : WStr := "Too many parameters - ".toList ++ a

/-! ### Derived vocabulary used by the claims -/

/-- The four-or-five-character connector a file entry receives. -/
def fileSeg (cfg : RenderConfig) (hasSub : Bool) : WStr :=
  if hasSub then
    (if cfg.bUseAscii then ['|', ' ', ' ', ' '] else ['│', ' ', ' ', ' '])
  else [' ', ' ', ' ', ' ', ' ']

/-- The glyph substitution of the specification's ASCII-equivalence claim:
`├` to `+`, `─` to `-`, `└` to `\`, `│` to `|`, all else unchanged. -/
def toAsciiChar (c : Char) : Char :=
  if c = '├' then '+'
  else if c = '─' then '-'
  else if c = '└' then '\\'
  else if c = '│' then '|'
  else c

/-- A character that the glyph substitution leaves unchanged. -/
def cleanChar (c : Char) : Bool :=
  !(c == '├' || c == '─' || c == '└' || c == '│')

mutual

/-- No name anywhere in the tree contains one of the four box-drawing
glyphs subject to the ASCII substitution. -/
def namesClean : FSNode → Bool
  | .file => true
  | .dir _ cs => childrenClean cs

/-- `namesClean` over a child list. -/
def childrenClean : List (WStr × Nat × FSNode) → Bool
  | [] => true
  | (n, _, t) :: rest => n.all cleanChar && namesClean t && childrenClean rest

end

/-- Every character the indentation scan can meet in a line this renderer
produced at the scanned columns: blanks, the vertical bar, the box glyphs,
and their ASCII replacements. -/
def renderAlphabet : List Char := [' ', '│', '├', '─', '└', '|', '+', '-', '\\']

/-- The four characters the specification names as triggering a
continuation column. -/
def contGlyphs : List Char := ['├', '│', '+', '|']

/-! ### Helper lemmas -/

theorem segment_file (cfg : RenderConfig) (hasSub isLast : Bool) (name : WStr) :
    segment cfg hasSub isLast false name = fileSeg cfg hasSub ++ name := by
  cases isLast <;> cases hasSub <;> simp [segment, fileSeg]

theorem segment_folder (cfg : RenderConfig) (hasSub isLast : Bool) (name : WStr) :
    segment cfg hasSub isLast true name
      = (if isLast then
          (if cfg.bUseAscii then ['\\', '-', '-', '-'] else ['└', '─', '─', '─'])
         else
          (if cfg.bUseAscii then ['+', '-', '-', '-'] else ['├', '─', '─', '─'])) ++ name := by
  cases isLast <;> simp [segment]

theorem drawTreeFiles_eq_map (cfg : RenderConfig) (hasSub : Bool) (width : Nat)
    (prevLine : WStr) (l : List WStr) :
    drawTreeFiles cfg hasSub width prevLine l
      = l.map fun nm =>
          indentText cfg.bUseAscii width prevLine ++ (fileSeg cfg hasSub ++ nm) := by
  induction l with
  | nil => rfl
  | cons n rest ih =>
    cases rest with
    | nil => simp [drawTreeFiles, segment_file]
    | cons n2 rest2 =>
      rw [drawTreeFiles, segment_file]
      rw [ih]
      simp

theorem hasSubScan_eq_any (l : List FindData) :
    hasSubScan l
      = l.any fun d => isDirAttr d.dwFileAttributes && !isPseudo d.cFileName := by
  induction l with
  | nil => rfl
  | cons d rest ih =>
    rw [hasSubScan]
    cases hd : isDirAttr d.dwFileAttributes <;>
      cases hp : isPseudo d.cFileName <;>
      simp [hd, hp, ih]

theorem hasSubFolder_dir_true (cs : List (WStr × Nat × FSNode)) (stale : FindData) :
    HasSubFolder (.dir true cs) stale
      = cs.any fun c => isDirAttr c.2.1 && !isPseudo c.1 := by
  rw [HasSubFolder, enumerate]
  simp only [hasSubScan_eq_any, List.any_cons]
  simp [childData, isDirAttr, isPseudo]
  induction cs with
  | nil => rfl
  | cons c rest ih => simp [childData, ih]

theorem hasSubScan_single (d : FindData) :
    hasSubScan [d] = (isDirAttr d.dwFileAttributes && !isPseudo d.cFileName) := by
  cases hd : isDirAttr d.dwFileAttributes <;>
    cases hp : isPseudo d.cFileName <;>
    simp [hasSubScan, hd, hp]

theorem getDirectoryStructure_dir_true (cfg : RenderConfig)
    (cs : List (WStr × Nat × FSNode)) (width : Nat) (prevLine : WStr) :
    getDirectoryStructure cfg (.dir true cs) width prevLine
      = (if cfg.bShowFiles then
          drawTreeFiles cfg (HasSubFolder (.dir true cs) zeroFind) width prevLine
            (withSpacer (fileNames cs))
         else []) ++
        drawTreeFolders cfg (HasSubFolder (.dir true cs) zeroFind) width prevLine
          (folderEntries cs) := by
  rw [getDirectoryStructure]

/-! ### Claim C5 -/

/-- Claim C5, counterexample. The claim says a path that cannot be opened makes
the probe return `false`.  On an unreadable directory `enumerate` fails
(`FindFirstFile` returns `INVALID_HANDLE_VALUE`), yet `HasSubFolder` — which
never checks the handle — still examines the uninitialized find-data once;
when that stale buffer happens to carry the directory attribute (0x10) and
the name `x`, the probe returns `true`. -/
theorem c5_probe_counterexample :
    enumerate (FSNode.dir false []) = none
    ∧ HasSubFolder (FSNode.dir false []) ⟨['x'], 16⟩ = true :=
  ⟨rfl, rfl⟩

/-- Claim C5, amended. For every directory that can be opened, `HasSubFolder`
returns `true` iff some child other than `.` and `..` carries the directory
attribute.  For every path that cannot be opened (an unreadable directory,
or a file path), the result is decided by the uninitialized find-data
buffer `stale`: `true` iff it happens to hold the directory attribute and a
name other than `.`/`..` — not necessarily `false`. -/
theorem c5_probe_amended (cs : List (WStr × Nat × FSNode)) (stale : FindData) :
    (HasSubFolder (.dir true cs) stale
        = cs.any fun c => isDirAttr c.2.1 && !isPseudo c.1)
    ∧ HasSubFolder .file stale
        = (isDirAttr stale.dwFileAttributes && !isPseudo stale.cFileName)
    ∧ ∀ cs2, HasSubFolder (.dir false cs2) stale
        = (isDirAttr stale.dwFileAttributes && !isPseudo stale.cFileName) := by
  refine ⟨hasSubFolder_dir_true cs stale, ?_, fun cs2 => ?_⟩
  · rw [HasSubFolder, enumerate, hasSubScan_single]
  · rw [HasSubFolder, enumerate, hasSubScan_single]

/-! ### Claim C6 -/

/-- Claim C6. A directory that cannot be opened mid-traversal: the Enumerator
fails (`enumerate` yields nothing, so both collected arrays stay empty and
`GetDirectoryStructure` prints no line for it), the entry renders as a leaf
— exactly its own connector line, no child output — and the remaining
sibling output is computed from `rest` alone, unchanged. -/
theorem c6_unreadable_mid_traversal (cfg : RenderConfig) (hasSub : Bool)
    (width : Nat) (prevLine : WStr) (n : WStr) (a : Nat)
    (cs rest : List (WStr × Nat × FSNode)) :
    enumerate (FSNode.dir false cs) = none
    ∧ getDirectoryStructure cfg (FSNode.dir false cs) width prevLine = []
    ∧ drawTreeFolders cfg hasSub width prevLine ((n, a, FSNode.dir false cs) :: rest)
        = (indentText cfg.bUseAscii width prevLine
            ++ segment cfg hasSub rest.isEmpty true n)
          :: drawTreeFolders cfg hasSub width prevLine rest := by
  refine ⟨rfl, by rw [getDirectoryStructure], ?_⟩
  cases rest with
  | nil =>
    rw [drawTreeFolders, drawTreeFolders]
    rw [getDirectoryStructure]
    simp
  | cons c2 rest2 =>
    rw [drawTreeFolders]
    rw [getDirectoryStructure]
    simp

/-! ### Claim C7 -/

/-- Claim C7. The synthetic spacer is drawn by the file pass: appending the
blank-name entry `" "` to a file list adds exactly one output line — its
name rendered as the single blank — and nothing else, because only the
folder pass (`drawfolder = TRUE`) ever recurses. -/
theorem c7_spacer_never_recursed (cfg : RenderConfig) (hasSub : Bool)
    (width : Nat) (prevLine : WStr) (l : List WStr) :
    (drawTreeFiles cfg hasSub width prevLine (l ++ [[' ']])).length = l.length + 1
    ∧ (drawTreeFiles cfg hasSub width prevLine (l ++ [[' ']])).getLast?
        = some (indentText cfg.bUseAscii width prevLine
            ++ segment cfg hasSub true false [' ']) := by
  rw [drawTreeFiles_eq_map]
  constructor
  · simp
  · rw [List.map_append]
    simp [segment_file]

/-! ### Claim C1 -/

/-- Claim C1. In a sibling list drawn with folder kind, entry `i` with
`i < n - 1` is printed as the indentation columns followed by `├───` and its
name (`+---` in ASCII mode); the entry with `i = n - 1` is printed with
`└───` and its name (`\---` in ASCII mode). -/
theorem c1_folder_connectors (cfg : RenderConfig) (hasSub : Bool) (width : Nat)
    (prevLine : WStr) (arr : List (WStr × Nat × FSNode)) (i : Nat)
    (h : i < arr.length) :
    (i + 1 < arr.length →
      ∃ pre post,
        drawTreeFolders cfg hasSub width prevLine arr
          = pre ++ (indentText cfg.bUseAscii width prevLine
              ++ (if cfg.bUseAscii then ['+', '-', '-', '-'] else ['├', '─', '─', '─'])
              ++ (arr.get ⟨i, h⟩).1) :: post)
    ∧ (i + 1 = arr.length →
      ∃ pre post,
        drawTreeFolders cfg hasSub width prevLine arr
          = pre ++ (indentText cfg.bUseAscii width prevLine
              ++ (if cfg.bUseAscii then ['\\', '-', '-', '-'] else ['└', '─', '─', '─'])
              ++ (arr.get ⟨i, h⟩).1) :: post) := by
  induction arr generalizing i with
  | nil => exact absurd h (by simp)
  | cons c rest ih =>
    cases i with
    | zero =>
      obtain ⟨n, a, t⟩ := c
      constructor
      · intro h1
        cases rest with
        | nil => simp at h1
        | cons c2 rest2 =>
          refine ⟨[], getDirectoryStructure cfg t (width + 4)
              (indentText cfg.bUseAscii width prevLine ++ segment cfg hasSub false true n)
            ++ drawTreeFolders cfg hasSub width prevLine (c2 :: rest2), ?_⟩
          rw [drawTreeFolders, segment_folder]
          simp
      · intro h2
        have hrest : rest = [] := by
          cases rest with
          | nil => rfl
          | cons c2 rest2 => simp at h2
        subst hrest
        refine ⟨[], getDirectoryStructure cfg t (width + 4)
            (indentText cfg.bUseAscii width prevLine ++ segment cfg hasSub true true n), ?_⟩
        rw [drawTreeFolders, segment_folder]
        simp
    | succ j =>
      have hj : j < rest.length := by simpa using h
      obtain ⟨n, a, t⟩ := c
      cases rest with
      | nil => exact absurd hj (by simp)
      | cons c2 rest2 =>
        constructor
        · intro h1
          obtain ⟨pre, post, heq⟩ := (ih j hj).1 (by simpa using h1)
          refine ⟨((indentText cfg.bUseAscii width prevLine
              ++ segment cfg hasSub false true n) ::
              getDirectoryStructure cfg t (width + 4)
                (indentText cfg.bUseAscii width prevLine ++ segment cfg hasSub false true n))
            ++ pre, post, ?_⟩
          rw [drawTreeFolders, heq]
          simp
        · intro h2
          obtain ⟨pre, post, heq⟩ := (ih j hj).2 (by simpa using h2)
          refine ⟨((indentText cfg.bUseAscii width prevLine
              ++ segment cfg hasSub false true n) ::
              getDirectoryStructure cfg t (width + 4)
                (indentText cfg.bUseAscii width prevLine ++ segment cfg hasSub false true n))
            ++ pre, post, ?_⟩
          rw [drawTreeFolders, heq]
          simp

/-- Claim C1, witness. A two-entry folder list: the first entry is printed
with `├───` and its name. -/
theorem c1_folder_connectors_witness :
    (0 : Nat) + 1 < 2
    ∧ ∃ pre post,
        drawTreeFolders ⟨false, false⟩ false 1 []
            [(['a'], 16, FSNode.file), (['b'], 16, FSNode.file)]
          = pre ++ (indentText false 1 []
              ++ ['├', '─', '─', '─'] ++ ['a']) :: post :=
  ⟨by decide,
    (c1_folder_connectors ⟨false, false⟩ false 1 []
      [(['a'], 16, FSNode.file), (['b'], 16, FSNode.file)] 0 (by decide)).1 (by decide)⟩

/-! ### Claims C3 and C4 -/

theorem map_withSpacer (f : WStr → WStr) (l : List WStr) :
    (withSpacer l).map f = l.map f ++ (if l = [] then [] else [f [' ']]) := by
  cases l with
  | nil => simp [withSpacer]
  | cons x xs => simp [withSpacer]

/-- Claim C3. With file listing on, every file-kind entry of a readable
directory — last or not — is rendered as the indentation columns followed by
`│   ` plus the name (`|   ` in ASCII mode) when `HasSubFolder` holds of the
directory containing the files, and by five blanks plus the name when it
does not. -/
theorem c3_file_connectors (cfg : RenderConfig) (cs : List (WStr × Nat × FSNode))
    (width : Nat) (prevLine : WStr) (h : cfg.bShowFiles = true) :
    getDirectoryStructure cfg (.dir true cs) width prevLine
      = (withSpacer (fileNames cs)).map
          (fun nm => indentText cfg.bUseAscii width prevLine
            ++ ((if HasSubFolder (.dir true cs) zeroFind then
                  (if cfg.bUseAscii then ['|', ' ', ' ', ' '] else ['│', ' ', ' ', ' '])
                 else [' ', ' ', ' ', ' ', ' ']) ++ nm))
        ++ drawTreeFolders cfg (HasSubFolder (.dir true cs) zeroFind) width prevLine
            (folderEntries cs) := by
  rw [getDirectoryStructure_dir_true, h, if_pos rfl, drawTreeFiles_eq_map]
  simp [fileSeg]

/-- Claim C3, witness. One file next to one subdirectory, file listing on. -/
theorem c3_file_connectors_witness :
    (RenderConfig.mk true false).bShowFiles = true
    ∧ getDirectoryStructure ⟨true, false⟩
        (.dir true [(['f'], 32, FSNode.file), (['d'], 16, FSNode.dir true [])]) 1 []
      = (withSpacer (fileNames [(['f'], 32, FSNode.file), (['d'], 16, FSNode.dir true [])])).map
          (fun nm => indentText false 1 []
            ++ ((if HasSubFolder
                    (.dir true [(['f'], 32, FSNode.file), (['d'], 16, FSNode.dir true [])])
                    zeroFind then
                  ['│', ' ', ' ', ' ']
                 else [' ', ' ', ' ', ' ', ' ']) ++ nm))
        ++ drawTreeFolders ⟨true, false⟩
            (HasSubFolder
              (.dir true [(['f'], 32, FSNode.file), (['d'], 16, FSNode.dir true [])])
              zeroFind) 1 []
            (folderEntries [(['f'], 32, FSNode.file), (['d'], 16, FSNode.dir true [])]) :=
  ⟨rfl, c3_file_connectors ⟨true, false⟩
    [(['f'], 32, FSNode.file), (['d'], 16, FSNode.dir true [])] 1 [] rfl⟩

/-- Claim C4. With file listing on, a readable directory renders all file
entries first in enumeration order, then — exactly when at least one real
file exists — one spacer line coming from the synthetic blank-name entry,
then the subdirectory listing; the subdirectory block always comes after the
file block. -/
theorem c4_files_then_spacer_then_folders (cfg : RenderConfig)
    (cs : List (WStr × Nat × FSNode)) (width : Nat) (prevLine : WStr)
    (h : cfg.bShowFiles = true) :
    getDirectoryStructure cfg (.dir true cs) width prevLine
      = ((fileNames cs).map fun nm =>
            indentText cfg.bUseAscii width prevLine
              ++ (fileSeg cfg (HasSubFolder (.dir true cs) zeroFind) ++ nm))
        ++ (if fileNames cs = [] then []
            else [indentText cfg.bUseAscii width prevLine
              ++ (fileSeg cfg (HasSubFolder (.dir true cs) zeroFind) ++ [' '])])
        ++ drawTreeFolders cfg (HasSubFolder (.dir true cs) zeroFind) width prevLine
            (folderEntries cs) := by
  rw [getDirectoryStructure_dir_true, h, if_pos rfl, drawTreeFiles_eq_map,
    map_withSpacer]

/-- Claim C4, witness. One file and one subdirectory, file listing on. -/
theorem c4_files_then_spacer_then_folders_witness :
    (RenderConfig.mk true true).bShowFiles = true
    ∧ getDirectoryStructure ⟨true, true⟩
        (.dir true [(['g'], 32, FSNode.file), (['e'], 16, FSNode.dir true [])]) 1 []
      = ((fileNames [(['g'], 32, FSNode.file), (['e'], 16, FSNode.dir true [])]).map
            fun nm => indentText true 1 []
              ++ (fileSeg ⟨true, true⟩
                    (HasSubFolder
                      (.dir true [(['g'], 32, FSNode.file), (['e'], 16, FSNode.dir true [])])
                      zeroFind) ++ nm))
        ++ (if fileNames [(['g'], 32, FSNode.file), (['e'], 16, FSNode.dir true [])] = [] then []
            else [indentText true 1 []
              ++ (fileSeg ⟨true, true⟩
                    (HasSubFolder
                      (.dir true [(['g'], 32, FSNode.file), (['e'], 16, FSNode.dir true [])])
                      zeroFind) ++ [' '])])
        ++ drawTreeFolders ⟨true, true⟩
            (HasSubFolder
              (.dir true [(['g'], 32, FSNode.file), (['e'], 16, FSNode.dir true [])])
              zeroFind) 1 []
            (folderEntries [(['g'], 32, FSNode.file), (['e'], 16, FSNode.dir true [])]) :=
  ⟨rfl, c4_files_then_spacer_then_folders ⟨true, true⟩
    [(['g'], 32, FSNode.file), (['e'], 16, FSNode.dir true [])] 1 [] rfl⟩

/-! ### Claim C10 -/

/-- Claim C10. A child without the directory attribute — whatever its other
attribute bits, hidden (0x2) and system (0x4) included — lands in the file
sequence; exactly the children with the directory attribute and a name
other than `.`/`..` land in the folder sequence; with file listing on the
file sequence is rendered by the file pass and the folder sequence by the
recursing folder pass. -/
theorem c10_attribute_partition (cs : List (WStr × Nat × FSNode)) (n : WStr)
    (a : Nat) (t : FSNode) (hmem : (n, a, t) ∈ cs) :
    (isDirAttr a = false → n ∈ fileNames cs)
    ∧ (isDirAttr a = true → isPseudo n = false → (n, a, t) ∈ folderEntries cs)
    ∧ (isDirAttr a = false → (n, a, t) ∉ folderEntries cs)
    ∧ ∀ cfg width prevLine, cfg.bShowFiles = true →
        getDirectoryStructure cfg (.dir true cs) width prevLine
          = drawTreeFiles cfg (HasSubFolder (.dir true cs) zeroFind) width prevLine
              (withSpacer (fileNames cs))
            ++ drawTreeFolders cfg (HasSubFolder (.dir true cs) zeroFind) width prevLine
              (folderEntries cs) := by
  refine ⟨?_, ?_, ?_, ?_⟩
  · intro ha
    exact List.mem_map.2 ⟨(n, a, t), List.mem_filter.2 ⟨hmem, by simp [ha]⟩, rfl⟩
  · intro ha hp
    exact List.mem_filter.2 ⟨hmem, by simp [isRealFolder, ha, hp]⟩
  · intro ha hcon
    have hpred := (List.mem_filter.1 hcon).2
    simp [isRealFolder, ha] at hpred
  · intro cfg width prevLine hshow
    rw [getDirectoryStructure_dir_true, hshow, if_pos rfl]

/-- Claim C10, witness. A hidden file (attributes 0x2) next to a
subdirectory. -/
theorem c10_attribute_partition_witness :
    ((['h'], 2, FSNode.file)
        ∈ [((['h'], 2, FSNode.file) : WStr × Nat × FSNode),
           (['d'], 16, FSNode.dir true [])])
    ∧ ((isDirAttr 2 = false
          → ['h'] ∈ fileNames [(['h'], 2, FSNode.file), (['d'], 16, FSNode.dir true [])])
      ∧ (isDirAttr 2 = true → isPseudo ['h'] = false
          → (['h'], 2, FSNode.file)
              ∈ folderEntries [(['h'], 2, FSNode.file), (['d'], 16, FSNode.dir true [])])
      ∧ (isDirAttr 2 = false
          → (['h'], 2, FSNode.file)
              ∉ folderEntries [(['h'], 2, FSNode.file), (['d'], 16, FSNode.dir true [])])
      ∧ ∀ cfg width prevLine, cfg.bShowFiles = true →
          getDirectoryStructure cfg
              (.dir true [(['h'], 2, FSNode.file), (['d'], 16, FSNode.dir true [])])
              width prevLine
            = drawTreeFiles cfg
                (HasSubFolder
                  (.dir true [(['h'], 2, FSNode.file), (['d'], 16, FSNode.dir true [])])
                  zeroFind) width prevLine
                (withSpacer (fileNames [(['h'], 2, FSNode.file), (['d'], 16, FSNode.dir true [])]))
              ++ drawTreeFolders cfg
                (HasSubFolder
                  (.dir true [(['h'], 2, FSNode.file), (['d'], 16, FSNode.dir true [])])
                  zeroFind) width prevLine
                (folderEntries [(['h'], 2, FSNode.file), (['d'], 16, FSNode.dir true [])])) :=
  ⟨List.mem_cons_self _ _,
    c10_attribute_partition [(['h'], 2, FSNode.file), (['d'], 16, FSNode.dir true [])]
      ['h'] 2 FSNode.file (List.mem_cons_self _ _)⟩

/-! ### Claim C2 -/

theorem indentText_length (ascii : Bool) (width : Nat) (prevLine : WStr) :
    (indentText ascii width prevLine).length = width - 1 := by
  simp [indentText]

theorem indentText_getD (ascii : Bool) (width : Nat) (prevLine : WStr)
    (j : Nat) (hj : j < width - 1) :
    (indentText ascii width prevLine).getD j wNul
      = if contCond (prevLine.getD j wNul) then vertChar ascii else ' ' := by
  simp [indentText, List.getD_eq_getElem?_getD, List.getElem?_map,
    List.getElem?_range, hj]

/-- Claim C2. The indentation columns: the printed run has exactly `width - 1`
characters, and — whenever the scanned characters of the previous rendered
line lie in the alphabet the renderer can put there (`renderAlphabet`,
established by `child_prevLine_in_alphabet` below; the root call scans no
column of its all-blank seed line) — column `j` holds the continuation glyph
iff the previous line holds one of `├`, `│`, `+`, `|` at column `j`, and a
single blank otherwise. -/
theorem c2_indent_columns (ascii : Bool) (width : Nat) (prevLine : WStr)
    (halph : ∀ j, j < width - 1 → prevLine.getD j wNul ∈ renderAlphabet) :
    (indentText ascii width prevLine).length = width - 1
    ∧ ∀ j, j < width - 1 →
        ((indentText ascii width prevLine).getD j wNul = vertChar ascii
            ↔ prevLine.getD j wNul ∈ contGlyphs)
        ∧ (prevLine.getD j wNul ∉ contGlyphs
            → (indentText ascii width prevLine).getD j wNul = ' ') := by
  refine ⟨indentText_length ascii width prevLine, fun j hj => ?_⟩
  rw [indentText_getD ascii width prevLine j hj]
  have hc := halph j hj
  simp only [renderAlphabet, List.mem_cons, List.not_mem_nil, or_false] at hc
  rcases hc with h | h | h | h | h | h | h | h | h <;>
    rw [h] <;> cases ascii <;> decide

/-- Claim C2, witness. `width = 3` over a previous line holding `│` then a
blank: column 0 continues, column 1 is blank. -/
theorem c2_indent_columns_witness :
    (∀ j, j < 3 - 1 → (['│', ' '] : WStr).getD j wNul ∈ renderAlphabet)
    ∧ ((indentText false 3 ['│', ' ']).length = 3 - 1
      ∧ ∀ j, j < 3 - 1 →
          ((indentText false 3 ['│', ' ']).getD j wNul = vertChar false
              ↔ (['│', ' '] : WStr).getD j wNul ∈ contGlyphs)
          ∧ ((['│', ' '] : WStr).getD j wNul ∉ contGlyphs
              → (indentText false 3 ['│', ' ']).getD j wNul = ' ')) :=
  ⟨by decide, c2_indent_columns false 3 ['│', ' '] (by decide)⟩

/-- Justification for the alphabet hypothesis of the C2 theorem: a child
level scans `(width + 4) - 1` columns of the folder line just printed at
width `width`, and every one of those characters — indentation column or
connector glyph — lies in `renderAlphabet`.  (The entry name starts only at
column `width + 3`, past the scanned region.) -/
theorem child_prevLine_in_alphabet (cfg : RenderConfig) (hasSub isLast : Bool)
    (width : Nat) (prevLine name : WStr) (j : Nat)
    (hj : j < (width + 4) - 1) :
    ((indentText cfg.bUseAscii width prevLine
        ++ segment cfg hasSub isLast true name).getD j wNul)
      ∈ renderAlphabet := by
  by_cases hcase : j < width - 1
  · rw [List.getD_append _ _ _ _ (by rw [indentText_length]; exact hcase)]
    rw [indentText_getD cfg.bUseAscii width prevLine j hcase]
    cases cfg.bUseAscii <;> split <;> simp [vertChar, renderAlphabet]
  · have hlen : (indentText cfg.bUseAscii width prevLine).length ≤ j := by
      rw [indentText_length]; omega
    rw [List.getD_append_right _ _ _ _ hlen]
    rw [indentText_length, segment_folder]
    have hlt : j - (width - 1) = 0 ∨ j - (width - 1) = 1
        ∨ j - (width - 1) = 2 ∨ j - (width - 1) = 3 := by omega
    rcases hlt with h | h | h | h <;> rw [h] <;>
      cases hb : cfg.bUseAscii <;> cases isLast <;>
        simp [renderAlphabet, List.getD_cons_zero, List.getD_cons_succ]

/-! ### Claim C8 -/

/-- Claim C8, counterexample. The claim says every malformed or unsupported
argument is reported and stops the program before traversal.  But an
unsupported option such as `/x` falls into the switch's `default: break`:
the loop finishes with no error, no flag change, and the traversal runs. -/
theorem c8_cli_counterexample :
    parseLoop [['/', 'x']] initState = ParseOutcome.run ⟨false, false⟩ none
    ∧ performsTraversal (parseLoop [['/', 'x']] initState) = true :=
  ⟨rfl, rfl⟩

/-- Claim C8, amended. Only an unrecognized *extra positional* argument is
reported: once a path is already set, a further argument that does not start
with `-` or `/` ends the loop with the `Too many parameters` message naming
that argument on the error stream, exit status 0, and no traversal.  An
unsupported option argument (leading `-` or `/` with an option character
other than `?`, `f`, `a`) is instead skipped silently and parsing
continues. -/
theorem c8_cli_amended :
    (∀ (a : WStr) (rest : List WStr) (st : ParseState),
      st.bSetPath = true
      → ¬(a.getD 0 wNul = '-' ∨ a.getD 0 wNul = '/')
      → parseLoop (a :: rest) st = .tooMany a
        ∧ errText a = "Too many parameters - ".toList ++ a
        ∧ outcomeExit (.tooMany a) = 0
        ∧ performsTraversal (.tooMany a) = false)
    ∧ ∀ (a : WStr) (rest : List WStr) (st : ParseState),
      (a.getD 0 wNul = '-' ∨ a.getD 0 wNul = '/')
      → towlower (a.getD 1 wNul) ≠ '?'
      → towlower (a.getD 1 wNul) ≠ 'f'
      → towlower (a.getD 1 wNul) ≠ 'a'
      → parseLoop (a :: rest) st = parseLoop rest st := by
  constructor
  · intro a rest st hset hflag
    rw [parseLoop, if_neg hflag, if_neg (by simp [hset])]
    exact ⟨rfl, rfl, rfl, rfl⟩
  · intro a rest st hflag hq hf ha
    rw [parseLoop, if_pos hflag, if_neg hq, if_neg hf, if_neg ha]

/-- Claim C8, witness. A second positional argument `y` after a stored path is
named in the error text and ends parsing without traversal; the unsupported
option `/x` is skipped. -/
theorem c8_cli_amended_witness :
    ((ParseState.mk false false true (some ['p'])).bSetPath = true
      ∧ (parseLoop [['y']] ⟨false, false, true, some ['p']⟩ = .tooMany ['y']
        ∧ errText ['y'] = "Too many parameters - ".toList ++ ['y']
        ∧ outcomeExit (.tooMany ['y']) = 0
        ∧ performsTraversal (.tooMany ['y']) = false))
    ∧ parseLoop [['/', 'x'], ['q']] initState = parseLoop [['q']] initState :=
  ⟨⟨rfl, (c8_cli_amended.1 ['y'] [] ⟨false, false, true, some ['p']⟩ rfl (by decide))⟩,
    c8_cli_amended.2 ['/', 'x'] [['q']] initState (by decide) (by decide) (by decide)
      (by decide)⟩

/-! ### Claim C9: supporting lemmas -/

theorem getD_map_toAscii (pu : WStr) (j : Nat) :
    (pu.map toAsciiChar).getD j wNul = toAsciiChar (pu.getD j wNul) := by
  induction pu generalizing j with
  | nil => simp [List.getD]; decide
  | cons c rest ih =>
    cases j with
    | zero => simp [List.getD]
    | succ k => simpa [List.getD] using ih k

theorem contCond_toAscii (c : Char) : contCond (toAsciiChar c) = contCond c := by
  by_cases h1 : c = '├'
  · subst h1; decide
  by_cases h2 : c = '─'
  · subst h2; decide
  by_cases h3 : c = '└'
  · subst h3; decide
  by_cases h4 : c = '│'
  · subst h4; decide
  simp [toAsciiChar, h1, h2, h3, h4]

theorem indentText_map (w : Nat) (pu : WStr) :
    indentText true w (pu.map toAsciiChar) = (indentText false w pu).map toAsciiChar := by
  simp only [indentText, List.map_map]
  apply List.map_congr_left
  intro j _
  simp only [Function.comp, getD_map_toAscii, contCond_toAscii]
  cases h : contCond (pu.getD j wNul) <;> simp [h] <;> decide

theorem cleanName_map (n : WStr) (h : n.all cleanChar = true) :
    n.map toAsciiChar = n := by
  induction n with
  | nil => rfl
  | cons c rest ih =>
    rw [List.all_cons, Bool.and_eq_true] at h
    have hc := h.1
    simp only [cleanChar, Bool.not_eq_true', Bool.or_eq_false_iff, beq_eq_false_iff_ne,
      ne_eq] at hc
    simp [toAsciiChar, hc.1.1.1, hc.1.1.2, hc.1.2, hc.2, ih h.2]

theorem toAscii_branch : toAsciiChar '├' = '+' := by decide

theorem toAscii_dash : toAsciiChar '─' = '-' := by decide

theorem toAscii_corner : toAsciiChar '└' = '\\' := by decide

theorem toAscii_vert : toAsciiChar '│' = '|' := by decide

theorem toAscii_blank : toAsciiChar ' ' = ' ' := by decide

theorem fileSeg_map (sf hs : Bool) :
    (fileSeg ⟨sf, false⟩ hs).map toAsciiChar = fileSeg ⟨sf, true⟩ hs := by
  cases hs <;> simp [fileSeg, toAscii_vert, toAscii_blank]

theorem segment_folder_map (sf hs isLast : Bool) (n : WStr)
    (hn : n.all cleanChar = true) :
    (segment ⟨sf, false⟩ hs isLast true n).map toAsciiChar
      = segment ⟨sf, true⟩ hs isLast true n := by
  rw [segment_folder, segment_folder, List.map_append, cleanName_map n hn]
  cases isLast <;>
    simp [toAscii_branch, toAscii_dash, toAscii_corner, toAscii_vert]

theorem folderLine_map (sf hs isLast : Bool) (w : Nat) (pu n : WStr)
    (hn : n.all cleanChar = true) :
    (indentText false w pu ++ segment ⟨sf, false⟩ hs isLast true n).map toAsciiChar
      = indentText true w (pu.map toAsciiChar) ++ segment ⟨sf, true⟩ hs isLast true n := by
  rw [List.map_append, segment_folder_map sf hs isLast n hn, indentText_map]

theorem childrenClean_cons (n : WStr) (a : Nat) (t : FSNode)
    (rest : List (WStr × Nat × FSNode)) :
    childrenClean ((n, a, t) :: rest)
      = (n.all cleanChar && namesClean t && childrenClean rest) := by
  rw [childrenClean]

theorem childrenClean_mem (cs : List (WStr × Nat × FSNode)) (n : WStr) (a : Nat)
    (t : FSNode) (h : childrenClean cs = true) (hmem : (n, a, t) ∈ cs) :
    n.all cleanChar = true ∧ namesClean t = true := by
  induction cs with
  | nil => cases hmem
  | cons c rest ih =>
    obtain ⟨n', a', t'⟩ := c
    rw [childrenClean_cons, Bool.and_eq_true, Bool.and_eq_true] at h
    rcases List.mem_cons.1 hmem with heq | htail
    · cases heq
      exact ⟨h.1.1, h.1.2⟩
    · exact ih h.2 htail

theorem childrenClean_filter (p : WStr × Nat × FSNode → Bool)
    (cs : List (WStr × Nat × FSNode)) (h : childrenClean cs = true) :
    childrenClean (cs.filter p) = true := by
  induction cs with
  | nil => exact h
  | cons c rest ih =>
    obtain ⟨n, a, t⟩ := c
    rw [childrenClean_cons, Bool.and_eq_true, Bool.and_eq_true] at h
    rw [List.filter_cons]
    split
    · rw [childrenClean_cons, Bool.and_eq_true, Bool.and_eq_true]
      exact ⟨⟨h.1.1, h.1.2⟩, ih h.2⟩
    · exact ih h.2

theorem fileNames_all_clean (cs : List (WStr × Nat × FSNode))
    (h : childrenClean cs = true) :
    ∀ nm ∈ withSpacer (fileNames cs), nm.all cleanChar = true := by
  intro nm hnm
  rw [withSpacer] at hnm
  have hcore : ∀ x ∈ fileNames cs, x.all cleanChar = true := by
    intro x hx
    obtain ⟨⟨n', a', t'⟩, hmem, hx'⟩ := List.mem_map.1 hx
    subst hx'
    exact (childrenClean_mem cs n' a' t' h (List.mem_filter.1 hmem).1).1
  split at hnm
  · exact hcore nm hnm
  · rcases List.mem_append.1 hnm with hl | hr
    · exact hcore nm hl
    · rw [List.mem_singleton.1 hr]
      decide

theorem drawTreeFiles_toAscii (sf hs : Bool) (w : Nat) (pu : WStr) (l : List WStr)
    (hl : ∀ nm ∈ l, nm.all cleanChar = true) :
    drawTreeFiles ⟨sf, true⟩ hs w (pu.map toAsciiChar) l
      = (drawTreeFiles ⟨sf, false⟩ hs w pu l).map (List.map toAsciiChar) := by
  rw [drawTreeFiles_eq_map, drawTreeFiles_eq_map, List.map_map]
  apply List.map_congr_left
  intro nm hnm
  simp only [Function.comp, List.map_append, cleanName_map nm (hl nm hnm),
    fileSeg_map, indentText_map]

theorem sizeOf_filter_le {α : Type} [SizeOf α] (p : α → Bool) (l : List α) :
    sizeOf (l.filter p) ≤ sizeOf l := by
  induction l with
  | nil => simp [List.filter]
  | cons a l ih =>
    rw [List.filter_cons]
    split <;> simp only [List.cons.sizeOf_spec] <;> omega

mutual

/-- The ASCII-mode walk of a whole subtree is the glyph substitution of the
Unicode-mode walk, provided no name in the subtree contains one of the four
substituted glyphs and the inherited previous lines are related by the same
substitution. -/
theorem asciiRefines_node (sf : Bool) (node : FSNode) (w : Nat) (pu : WStr)
    (h : namesClean node = true) :
    getDirectoryStructure ⟨sf, true⟩ node w (pu.map toAsciiChar)
      = (getDirectoryStructure ⟨sf, false⟩ node w pu).map (List.map toAsciiChar) := by
  match node, h with
  | .file, _ => simp [getDirectoryStructure]
  | .dir false cs, _ => simp [getDirectoryStructure]
  | .dir true cs, h =>
    have hcc : childrenClean cs = true := by rw [namesClean] at h; exact h
    rw [getDirectoryStructure_dir_true, getDirectoryStructure_dir_true,
      List.map_append]
    congr 1
    · cases sf with
      | false => simp
      | true =>
        simp only [if_pos rfl]
        exact drawTreeFiles_toAscii true (HasSubFolder (.dir true cs) zeroFind) w pu
          (withSpacer (fileNames cs)) (fileNames_all_clean cs hcc)
    · exact asciiRefines_list sf (HasSubFolder (.dir true cs) zeroFind) w pu
        (folderEntries cs) (childrenClean_filter isRealFolder cs hcc)
termination_by sizeOf node
decreasing_by
  have hle := sizeOf_filter_le isRealFolder cs
  simp only [folderEntries, FSNode.dir.sizeOf_spec]
  omega

/-- `asciiRefines_node` lifted over a folder sibling list, mirroring the
folder pass. -/
theorem asciiRefines_list (sf hasSub : Bool) (w : Nat) (pu : WStr)
    (l : List (WStr × Nat × FSNode)) (h : childrenClean l = true) :
    drawTreeFolders ⟨sf, true⟩ hasSub w (pu.map toAsciiChar) l
      = (drawTreeFolders ⟨sf, false⟩ hasSub w pu l).map (List.map toAsciiChar) := by
  match l, h with
  | [], _ => simp [drawTreeFolders]
  | [(n, a, t)], h =>
    rw [childrenClean_cons, Bool.and_eq_true, Bool.and_eq_true] at h
    rw [drawTreeFolders, drawTreeFolders, List.map_cons]
    rw [← folderLine_map sf hasSub true w pu n h.1.1]
    congr 1
    exact asciiRefines_node sf t (w + 4)
      (indentText false w pu ++ segment ⟨sf, false⟩ hasSub true true n) h.1.2
  | (n, a, t) :: c2 :: rest, h =>
    rw [childrenClean_cons, Bool.and_eq_true, Bool.and_eq_true] at h
    rw [drawTreeFolders, drawTreeFolders, List.map_append, List.map_cons]
    rw [← folderLine_map sf hasSub false w pu n h.1.1]
    congr 1
    · congr 1
      exact asciiRefines_node sf t (w + 4)
        (indentText false w pu ++ segment ⟨sf, false⟩ hasSub false true n) h.1.2
    · exact asciiRefines_list sf hasSub w pu (c2 :: rest) h.2
termination_by sizeOf l

end

/-- Claim C9, counterexample. The claim promises byte-identical output after
the four-glyph substitution with *no other characters changed*, for every
tree.  A folder legally named `│` (U+2502, allowed in Windows names)
breaks it at the root seed line of main.cpp:403: Unicode mode prints
`└───│` whose substitution ends in `|`, but ASCII mode prints `\---│`,
keeping the name's own glyph. -/
theorem c9_ascii_counterexample :
    getDirectoryStructure ⟨false, true⟩
        (FSNode.dir true [(['│'], 16, FSNode.dir true [])]) 1 (List.replicate 10 ' ')
      ≠ (getDirectoryStructure ⟨false, false⟩
          (FSNode.dir true [(['│'], 16, FSNode.dir true [])]) 1
          (List.replicate 10 ' ')).map (List.map toAsciiChar) := by
  rw [getDirectoryStructure_dir_true, getDirectoryStructure_dir_true]
  simp [folderEntries, fileNames, isRealFolder, isDirAttr, isPseudo, withSpacer,
    drawTreeFolders, getDirectoryStructure, indentText, segment,
    hasSubFolder_dir_true, toAsciiChar]

/-- Claim C9, amended. For every tree none of whose entry names contains one
of the four box-drawing glyphs, and for every `show_files` setting, the
ASCII-mode output is exactly the Unicode-mode output with `├` replaced by
`+`, `─` by `-`, `└` by `\`, `│` by `|`, and nothing else changed (the
inherited previous lines being related by the same substitution; the
root's all-blank seed line is fixed by it). -/
theorem c9_ascii_refinement_amended (sf : Bool) (node : FSNode) (w : Nat)
    (pu : WStr) (h : namesClean node = true) :
    getDirectoryStructure ⟨sf, true⟩ node w (pu.map toAsciiChar)
      = (getDirectoryStructure ⟨sf, false⟩ node w pu).map (List.map toAsciiChar) :=
  asciiRefines_node sf node w pu h

/-- Claim C9, witness. A two-folder tree with plain names, file listing on. -/
theorem c9_ascii_refinement_amended_witness :
    namesClean
        (FSNode.dir true [(['a'], 16, FSNode.dir true []), (['b'], 32, FSNode.file)])
      = true
    ∧ getDirectoryStructure ⟨true, true⟩
        (FSNode.dir true [(['a'], 16, FSNode.dir true []), (['b'], 32, FSNode.file)]) 1 []
      = (getDirectoryStructure ⟨true, false⟩
          (FSNode.dir true [(['a'], 16, FSNode.dir true []), (['b'], 32, FSNode.file)])
          1 []).map (List.map toAsciiChar) :=
  ⟨rfl, c9_ascii_refinement_amended true
    (FSNode.dir true [(['a'], 16, FSNode.dir true []), (['b'], 32, FSNode.file)])
    1 [] rfl⟩

end TreeCmd
